import Mathlib

/-!
Verification of the persistence and validation core of the Blockchain
repository (packages `chainwriter`, `blockinfodatabase`, `coindatabase`).

The Go source is shallowly embedded: Go maps and the levelDB key-value
stores become association lists with distinct keys, pointer mutation
becomes functional record update, and `uint32` arithmetic is `Nat`
with an explicit `% 2^32` at the points where the source performs
32-bit operations.  Go code that can panic (nil-pointer dereference,
out-of-range index) is embedded as an `Option`-valued function that
returns `none` exactly on the panicking paths.
-/

/-! ### Association lists: the model of Go maps and of the levelDB stores

`lookupAL` is map lookup / `db.Get`, `insertAL` is map assignment /
`db.Put` (replacing the entry when the key is present), `eraseAL` is
`delete` / `db.Delete`.  All states built by the embedded operations
have pairwise-distinct keys, so the list length is the map size. -/

def lookupAL {α β : Type} [DecidableEq α] : List (α × β) → α → Option β
  | [], _ => none
  | (k, v) :: t, a => if k = a then some v else lookupAL t a

def insertAL {α β : Type} [DecidableEq α] : List (α × β) → α → β → List (α × β)
  | [], a, b => [(a, b)]
  | (k, v) :: t, a, b => if k = a then (a, b) :: t else (k, v) :: insertAL t a b

def eraseAL {α β : Type} [DecidableEq α] : List (α × β) → α → List (α × β)
  | [], _ => []
  | (k, v) :: t, a => if k = a then t else (k, v) :: eraseAL t a

theorem lookupAL_insertAL {α β : Type} [DecidableEq α]
    (l : List (α × β)) (k a : α) (v : β) :
    lookupAL (insertAL l k v) a = if k = a then some v else lookupAL l a := by
  induction l with
  | nil => simp [insertAL, lookupAL]
  | cons hd t ih =>
      obtain ⟨k', v'⟩ := hd
      by_cases hk : k' = k
      · subst hk
        by_cases ha : k' = a <;> simp [insertAL, lookupAL, ha]
      · by_cases ha : k' = a
        · subst ha
          have hka : ¬k = k' := fun h => hk h.symm
          simp [insertAL, lookupAL, hk, hka]
        · simp [insertAL, lookupAL, hk, ha, ih]

theorem length_insertAL_of_none {α β : Type} [DecidableEq α]
    (l : List (α × β)) (k : α) (v : β) (h : lookupAL l k = none) :
    (insertAL l k v).length = l.length + 1 := by
  induction l with
  | nil => simp [insertAL]
  | cons hd t ih =>
      obtain ⟨k', v'⟩ := hd
      by_cases hk : k' = k
      · simp [lookupAL, hk] at h
      · simp [lookupAL, hk] at h
        simp [insertAL, hk, ih h]

theorem length_insertAL_of_some {α β : Type} [DecidableEq α]
    (l : List (α × β)) (k : α) (v c : β) (h : lookupAL l k = some c) :
    (insertAL l k v).length = l.length := by
  induction l with
  | nil => simp [lookupAL] at h
  | cons hd t ih =>
      obtain ⟨k', v'⟩ := hd
      by_cases hk : k' = k
      · simp [insertAL, hk]
      · simp [lookupAL, hk] at h
        simp [insertAL, hk, ih h]

/-! ### Data model (package `block`; spec section 3) -/

structure TransactionOutput where
  Amount : Nat
  LockingScript : String
  deriving DecidableEq

structure TransactionInput where
  ReferenceTransactionHash : String
  OutputIndex : Nat
  UnlockingScript : String
  deriving DecidableEq

/-- A transaction.  Its content digest `Hash` (the Go method
`tx.Hash()`) is modelled as a stored field: hashing is pure,
stable and collision-free (spec section 4.4). -/
structure Transaction where
  Hash : String
  Inputs : List TransactionInput
  Outputs : List TransactionOutput
  deriving DecidableEq

structure Header where
  Version : Nat
  PreviousHash : String
  MerkleRoot : String
  DifficultyTarget : String
  Nonce : Nat
  Timestamp : Nat
  deriving DecidableEq

structure Block where
  Header : Header
  Transactions : List Transaction
  deriving DecidableEq

/-- An UndoBlock (package `chainwriter`): parallel arrays describing the
outputs consumed by a block.  In Go each field is a slice that may be
`nil`; only the nil-ness of `Amounts` is ever branched on
(`undoBlock.Amounts != nil` in `ChainWriter.StoreBlock`), so `Amounts`
is modelled as an `Option`, with `none` standing for the nil slice and
`some l` for a non-nil slice with entries `l`. -/
structure UndoBlock where
  TransactionInputHashes : List String
  OutputIndexes : List Nat
  Amounts : Option (List Nat)
  LockingScripts : List String
  deriving DecidableEq

/-! ### Package `coindatabase` -/

namespace coindatabase

/-- A CoinLocator uniquely identifies one output of one transaction;
equality is by value (it is used as a Go map key). -/
structure CoinLocator where
  ReferenceTransactionHash : String
  OutputIndex : Nat
  deriving DecidableEq

/-- A Coin lives in the main cache; `IsSpent` records a cached spend. -/
structure Coin where
  TransactionOutput : TransactionOutput
  IsSpent : Bool
  deriving DecidableEq

/-- Per-transaction persisted record of remaining outputs (three
index-parallel arrays). -/
structure CoinRecord where
  Version : Nat
  OutputIndexes : List Nat
  Amounts : List Nat
  LockingScripts : List String
  deriving DecidableEq

/-- The CoinDatabase state.  `db` is the levelDB, modelled as an
association list from transaction hash to the stored CoinRecord
(serialization is the identity round-trip, spec section 4.4);
`MainCache` is the Go map, modelled as an association list with
distinct keys. -/
structure CoinDatabase where
  db : List (String × CoinRecord)
  MainCache : List (CoinLocator × Coin)
  MainCacheSize : Nat
  MainCacheCapacity : Nat
  deriving DecidableEq

/-- `contains` from the source: whether slice `s` holds element `e`. -/
def containsU (s : List Nat) (e : Nat) : Bool :=
  match s with
  | [] => false
  | a :: t => if a = e then true else containsU t e

/-- `indexOf` from the source returns the index of `e` in `s`, with the
sentinel `-1` for absence rendered as `none`. -/
def indexOfU (s : List Nat) (e : Nat) : Option Nat :=
  match s with
  | [] => none
  | a :: t => if a = e then some 0 else (indexOfU t e).map (· + 1)

/-- `makeCoinLocator` builds the locator of a transaction input. -/
def makeCoinLocator (txi : TransactionInput) : CoinLocator :=
  ⟨txi.ReferenceTransactionHash, txi.OutputIndex⟩

/-- `getCoinRecordFromDB`: `db.Get` miss gives `nil`, hit gives the
decoded record. -/
def getCoinRecordFromDB (s : CoinDatabase) (txHash : String) : Option CoinRecord :=
  lookupAL s.db txHash

/-- `putRecordInDB` stores a CoinRecord under a transaction hash. -/
def putRecordInDB (s : CoinDatabase) (txHash : String) (cr : CoinRecord) : CoinDatabase :=
  { s with db := insertAL s.db txHash cr }

/-- `removeCoinFromRecord` drops the entry with the given output index
from the three parallel arrays (no change when the index is absent).
`List.eraseIdx` renders Go's `append(xs[:i], xs[i+1:]...)`; the found
index is always within `OutputIndexes`, and within the other two
arrays whenever the record's arrays are parallel (invariant I1). -/
def removeCoinFromRecord (cr : CoinRecord) (outputIndex : Nat) : CoinRecord :=
  match indexOfU cr.OutputIndexes outputIndex with
  | none => cr
  | some i =>
      { cr with
        OutputIndexes := cr.OutputIndexes.eraseIdx i
        Amounts := cr.Amounts.eraseIdx i
        LockingScripts := cr.LockingScripts.eraseIdx i }

/-- `removeCoinFromDB`: prune one output from the record stored under
`txHash`, deleting the key when at most one amount remains. -/
def removeCoinFromDB (s : CoinDatabase) (txHash : String) (cl : CoinLocator) : CoinDatabase :=
  match getCoinRecordFromDB s txHash with
  | none => s
  | some cr =>
      if cr.Amounts.length ≤ 1 then { s with db := eraseAL s.db txHash }
      else putRecordInDB s txHash (removeCoinFromRecord cr cl.OutputIndex)

/-- `createCoinRecord` enumerates all outputs of a transaction. -/
def createCoinRecord (tx : Transaction) : CoinRecord :=
  { Version := 0
    OutputIndexes := List.range tx.Outputs.length
    Amounts := tx.Outputs.map (·.Amount)
    LockingScripts := tx.Outputs.map (·.LockingScript) }

/-- The per-input check at the heart of `validateTransaction`: cache
hit demands `IsSpent == false`; cache miss demands a persisted record
for the reference hash whose `OutputIndexes` still lists the index. -/
def validateInputCheck (s : CoinDatabase) (txi : TransactionInput) : Bool :=
  match lookupAL s.MainCache (makeCoinLocator txi) with
  | some coin => !coin.IsSpent
  | none =>
      match lookupAL s.db txi.ReferenceTransactionHash with
      | none => false
      | some cr => containsU cr.OutputIndexes txi.OutputIndex

/-- `validateTransaction` (error result rendered as `false`). -/
def validateTransaction (s : CoinDatabase) (tx : Transaction) : Bool :=
  tx.Inputs.all (validateInputCheck s)

/-- `ValidateBlock` returns whether a block's transactions are valid. -/
def ValidateBlock (s : CoinDatabase) (transactions : List Transaction) : Bool :=
  transactions.all (validateTransaction s)

/-- The body of the `FlushMainCache` accumulation loop for one cache
entry: fetch the record (from the per-flush accumulator if already
updated, else from the db, where a `db.Get` miss unmarshals to the
zero-valued record in the source), prune it when the coin is spent,
and store it in the accumulator. -/
def flushCoinStep (db0 : List (String × CoinRecord))
    (acc : List (String × CoinRecord)) (cl : CoinLocator) (coin : Coin) :
    List (String × CoinRecord) :=
  let cr :=
    match lookupAL acc cl.ReferenceTransactionHash with
    | some cr2 => cr2
    | none => (lookupAL db0 cl.ReferenceTransactionHash).getD ⟨0, [], [], []⟩
  let cr := if coin.IsSpent then removeCoinFromRecord cr cl.OutputIndex else cr
  insertAL acc cl.ReferenceTransactionHash cr

/-- `FlushMainCache` reconciles every cached coin into the updated
records, writes them back (deleting records left with no outputs),
empties the cache and zeroes `MainCacheSize`. -/
def FlushMainCache (s : CoinDatabase) : CoinDatabase :=
  let upd := s.MainCache.foldl (fun acc p => flushCoinStep s.db acc p.1 p.2) []
  let db :=
    upd.foldl
      (fun db p =>
        if p.2.OutputIndexes.length = 0 then eraseAL db p.1 else insertAL db p.1 p.2)
      s.db
  { s with db := db, MainCache := [], MainCacheSize := 0 }

/-- Phase (1) of `StoreBlock` for one input of transaction `tx`: a
cached coin is flagged spent in place; otherwise the source calls
`removeCoinFromDB(tx.Hash(), cl)` — note that it passes the hash of the
*spending* transaction `tx`, not `cl.ReferenceTransactionHash`. -/
def storeSpendInput (s : CoinDatabase) (txHash : String) (txi : TransactionInput) :
    CoinDatabase :=
  let cl := makeCoinLocator txi
  match lookupAL s.MainCache cl with
  | some coin =>
      { s with MainCache := insertAL s.MainCache cl { coin with IsSpent := true } }
  | none => removeCoinFromDB s txHash cl

/-- Phase (1) of `StoreBlock`: consume every input of every transaction. -/
def storePhaseA (s : CoinDatabase) (transactions : List Transaction) : CoinDatabase :=
  transactions.foldl
    (fun s tx => tx.Inputs.foldl (fun s txi => storeSpendInput s tx.Hash txi) s) s

/-- Phase (2) of `StoreBlock` for one output: flush first when the
cache is full, then insert the fresh unspent coin and bump the size
counter. -/
def storeInsertOutput (s : CoinDatabase) (txHash : String)
    (p : Nat × TransactionOutput) : CoinDatabase :=
  let s := if s.MainCacheSize ≥ s.MainCacheCapacity then FlushMainCache s else s
  { s with
    MainCache := insertAL s.MainCache ⟨txHash, p.1⟩ ⟨p.2, false⟩
    MainCacheSize := s.MainCacheSize + 1 }

/-- Phase (2) of `StoreBlock`: insert every output of every transaction
into the main cache. -/
def storePhaseB (s : CoinDatabase) (transactions : List Transaction) : CoinDatabase :=
  transactions.foldl
    (fun s tx => tx.Outputs.enum.foldl (fun s p => storeInsertOutput s tx.Hash p) s) s

/-- Phase (3) of `StoreBlock`: persist a full CoinRecord per transaction. -/
def storePhaseC (s : CoinDatabase) (transactions : List Transaction) : CoinDatabase :=
  transactions.foldl (fun s tx => putRecordInDB s tx.Hash (createCoinRecord tx)) s

/-- `StoreBlock` applies a newly minted block's transactions. -/
def StoreBlock (s : CoinDatabase) (transactions : List Transaction) : CoinDatabase :=
  storePhaseC (storePhaseB (storePhaseA s transactions) transactions) transactions

/-- `GetCoin`: cache first; on a miss reconstruct an unspent coin from
the persisted record (absent when neither tier holds the locator).
The `getD` reads of the parallel arrays are in-bounds whenever the
record satisfies invariant I1. -/
def GetCoin (s : CoinDatabase) (cl : CoinLocator) : Option Coin :=
  match lookupAL s.MainCache cl with
  | some coin => some coin
  | none =>
      match getCoinRecordFromDB s cl.ReferenceTransactionHash with
      | none => none
      | some cr =>
          match indexOfU cr.OutputIndexes cl.OutputIndex with
          | none => none
          | some i =>
              some
                { TransactionOutput :=
                    { Amount := cr.Amounts.getD i 0
                      LockingScript := cr.LockingScripts.getD i "" }
                  IsSpent := false }

/-- `addCoinToRecord` appends an undone output to the three parallel
arrays of a record.  The source indexes `ub.OutputIndexes[index]`,
`ub.Amounts[index]` and `ub.LockingScripts[index]`; an out-of-range
access (including any index into a nil `Amounts` slice) panics in Go
and is rendered as `none`. -/
def addCoinToRecord (cr : CoinRecord) (ub : UndoBlock) (index : Nat) : Option CoinRecord :=
  match ub.OutputIndexes.get? index,
        ub.Amounts.bind (fun l => l.get? index),
        ub.LockingScripts.get? index with
  | some oi, some amt, some lsc =>
      some
        { cr with
          OutputIndexes := cr.OutputIndexes ++ [oi]
          Amounts := cr.Amounts ++ [amt]
          LockingScripts := cr.LockingScripts ++ [lsc] }
  | _, _, _ => none

/-- Step (1) of `UndoCoins` for one transaction of an undone block:
delete every output locator from the cache and delete the
transaction's record from the db.  The source also folds
`removeCoinFromRecord` over a local copy of the record, but that value
is discarded (the whole key is deleted right after); the fold
dereferences a nil record pointer — a panic, rendered `none` — exactly
when the record is absent and the transaction has outputs. -/
def undoEraseTx (s : CoinDatabase) (tx : Transaction) : Option CoinDatabase :=
  match getCoinRecordFromDB s tx.Hash with
  | none =>
      if tx.Outputs.isEmpty then some { s with db := eraseAL s.db tx.Hash }
      else none
  | some _ =>
      let cache :=
        (List.range tx.Outputs.length).foldl
          (fun c idx => eraseAL c (⟨tx.Hash, idx⟩ : CoinLocator)) s.MainCache
      some { s with MainCache := cache, db := eraseAL s.db tx.Hash }

/-- Step (2) of `UndoCoins` for entry `idx` of the undo block's
parallel arrays: flip a cached coin back to unspent, append the output
to the persisted record of its reference hash, and write the record
back.  The source passes the fetched record straight into
`addCoinToRecord`, dereferencing nil — a panic, rendered `none` —
when the record is absent. -/
def undoReviveStep (s : CoinDatabase) (ub : UndoBlock) (idx : Nat) (txHash : String) :
    Option CoinDatabase :=
  match getCoinRecordFromDB s txHash with
  | none => none
  | some cr =>
      match ub.OutputIndexes.get? idx with
      | none => none
      | some oi =>
          let cache :=
            match lookupAL s.MainCache (⟨txHash, oi⟩ : CoinLocator) with
            | some coin =>
                insertAL s.MainCache (⟨txHash, oi⟩ : CoinLocator)
                  { coin with IsSpent := false }
            | none => s.MainCache
          match addCoinToRecord cr ub idx with
          | none => none
          | some cr2 => some (putRecordInDB { s with MainCache := cache } txHash cr2)

/-- Step (2) of `UndoCoins` over all entries of one undo block. -/
def undoRevive (s : CoinDatabase) (ub : UndoBlock) : Option CoinDatabase :=
  ub.TransactionInputHashes.enum.foldlM (fun s p => undoReviveStep s ub p.1 p.2) s

/-- `UndoCoins` over one `(block, undoBlock)` pair: erase the block's
created outputs, then revive its consumed inputs. -/
def undoBlockPair (s : CoinDatabase) (b : Block) (ub : UndoBlock) : Option CoinDatabase := do
  let s1 ← b.Transactions.foldlM undoEraseTx s
  undoRevive s1 ub

/-- `UndoCoins` reverts `blocks[i]` using `undoBlocks[i]` in order.
The source indexes `undoBlocks[i]` for every `i < len(blocks)`, so a
shorter undo slice panics (rendered `none`); extra undo blocks are
ignored. -/
def UndoCoins (s : CoinDatabase) : List Block → List UndoBlock → Option CoinDatabase
  | [], _ => some s
  | _ :: _, [] => none
  | b :: bs, ub :: ubs => do
      let s1 ← undoBlockPair s b ub
      UndoCoins s1 bs ubs

/-! #### A stateful reading of validation

The Go validation functions take the `CoinDatabase` by pointer; to
state frame properties the loop bodies are also embedded as state
transformers that thread the database through every step (each step
only reads, so it returns the state it was handed, exactly as the
source contains no assignment). -/

/-- Stateful `validateTransaction`: fold over the inputs threading the
database, stopping at the first failing input (the source returns an
error there). -/
def validateTransactionS (s : CoinDatabase) (tx : Transaction) : Bool × CoinDatabase :=
  tx.Inputs.foldl
    (fun acc txi => if acc.1 then (validateInputCheck acc.2 txi, acc.2) else acc)
    (true, s)

/-- Stateful `ValidateBlock`: fold over the transactions threading
the database, stopping at the first invalid transaction. -/
def ValidateBlockS (s : CoinDatabase) (transactions : List Transaction) :
    Bool × CoinDatabase :=
  transactions.foldl
    (fun acc tx => if acc.1 then validateTransactionS acc.2 tx else acc)
    (true, s)

end coindatabase

/-! ### Package `blockinfodatabase` -/

namespace blockinfodatabase

/-- A BlockRecord, as constructed by `ChainWriter.StoreBlock`. -/
structure BlockRecord where
  Header : Header
  Height : Nat
  NumberOfTransactions : Nat
  BlockFile : String
  BlockStartOffset : Nat
  BlockEndOffset : Nat
  UndoFile : String
  UndoStartOffset : Nat
  UndoEndOffset : Nat
  deriving DecidableEq

/-- `GetBlockRecord`: the levelDB is a map from hash to raw bytes
(`List Nat`), and `decode` abstracts `proto.Unmarshal` followed by
`DecodeBlockRecord`, with `none` for a failed unmarshal.  A `db.Get`
error (unknown key) returns `nil`; a failed deserialization also
returns `nil` after logging.  The function is total: no case raises. -/
def GetBlockRecord (store : List (String × List Nat))
    (decode : List Nat → Option BlockRecord) (hash : String) : Option BlockRecord :=
  match lookupAL store hash with
  | none => none
  | some bytes => decode bytes

end blockinfodatabase

/-! ### Package `chainwriter` -/

namespace chainwriter

/-- `2^32`: Go's offsets, sizes and file numbers are `uint32`. -/
def u32Mod : Nat := 4294967296

/-- Storage information for one written record. -/
structure FileInfo where
  FileName : String
  StartOffset : Nat
  EndOffset : Nat
  deriving DecidableEq

/-- The ChainWriter state: two independent append-only segment
streams, each with a moving file-number/offset cursor. -/
structure ChainWriter where
  FileExtension : String
  DataDirectory : String
  BlockFileName : String
  CurrentBlockFileNumber : Nat
  CurrentBlockOffset : Nat
  MaxBlockFileSize : Nat
  UndoFileName : String
  CurrentUndoFileNumber : Nat
  CurrentUndoOffset : Nat
  MaxUndoFileSize : Nat
  deriving DecidableEq

/-- `WriteBlock` over the block cursors.  `n` is the length of the
serialized block, taken `% 2^32` like Go's `uint32(len(...))`; all
cursor arithmetic wraps the way `uint32` addition does. -/
def WriteBlock (cw : ChainWriter) (n : Nat) : FileInfo × ChainWriter :=
  let len := n % u32Mod
  let cw :=
    if (cw.CurrentBlockOffset + len) % u32Mod > cw.MaxBlockFileSize then
      { cw with
        CurrentBlockFileNumber := (cw.CurrentBlockFileNumber + 1) % u32Mod
        CurrentBlockOffset := 0 }
    else cw
  let name :=
    cw.DataDirectory ++ "/" ++ cw.BlockFileName ++ "_"
      ++ toString cw.CurrentBlockFileNumber ++ cw.FileExtension
  let fi : FileInfo :=
    ⟨name, cw.CurrentBlockOffset, (cw.CurrentBlockOffset + len) % u32Mod⟩
  (fi, { cw with CurrentBlockOffset := (cw.CurrentBlockOffset + len) % u32Mod })

/-- `WriteUndoBlock`: identical to `WriteBlock` over the undo cursors. -/
def WriteUndoBlock (cw : ChainWriter) (n : Nat) : FileInfo × ChainWriter :=
  let len := n % u32Mod
  let cw :=
    if (cw.CurrentUndoOffset + len) % u32Mod > cw.MaxUndoFileSize then
      { cw with
        CurrentUndoFileNumber := (cw.CurrentUndoFileNumber + 1) % u32Mod
        CurrentUndoOffset := 0 }
    else cw
  let name :=
    cw.DataDirectory ++ "/" ++ cw.UndoFileName ++ "_"
      ++ toString cw.CurrentUndoFileNumber ++ cw.FileExtension
  let fi : FileInfo :=
    ⟨name, cw.CurrentUndoOffset, (cw.CurrentUndoOffset + len) % u32Mod⟩
  (fi, { cw with CurrentUndoOffset := (cw.CurrentUndoOffset + len) % u32Mod })

/-- `ChainWriter.StoreBlock`: write the serialized block, then the
serialized undo block only when `undoBlock.Amounts != nil` (a nil
slice is `Amounts = none`; note the source tests nil-ness, not
emptiness).  `blockLen` and `undoLen` abstract the lengths of the two
`proto.Marshal` results.  The returned BlockRecord carries the
zero-valued FileInfo as undo location when the write was skipped. -/
def StoreBlock (cw : ChainWriter) (bl : Block) (undoBlock : UndoBlock) (height : Nat)
    (blockLen undoLen : Nat) : blockinfodatabase.BlockRecord × ChainWriter :=
  let bw := WriteBlock cw blockLen
  let bfi := bw.1
  let uw :=
    match undoBlock.Amounts with
    | none => ((⟨"", 0, 0⟩ : FileInfo), bw.2)
    | some _ => WriteUndoBlock bw.2 undoLen
  let ufi := uw.1
  (⟨bl.Header, height, bl.Transactions.length % u32Mod,
    bfi.FileName, bfi.StartOffset, bfi.EndOffset,
    ufi.FileName, ufi.StartOffset, ufi.EndOffset⟩, uw.2)

end chainwriter

/-! ### Derived notions used by the statements -/

namespace coindatabase

/-- The outputs inserted by phase (2) of `StoreBlock`, flattened in
loop order: one `(transaction hash, (output index, output))` triple per
output of each transaction. -/
def flatOutputs (transactions : List Transaction) :
    List (String × (Nat × TransactionOutput)) :=
  transactions.flatMap (fun tx => tx.Outputs.enum.map (fun p => (tx.Hash, p)))

/-- The cache locators of the coins created by a list of transactions,
in insertion order. -/
def createdLocators (transactions : List Transaction) : List CoinLocator :=
  (flatOutputs transactions).map (fun q => ⟨q.1, q.2.1⟩)

end coindatabase

/-! ### Concrete states used by witnesses and counterexamples -/

namespace coindatabase

/-- A database holding one persisted record: transaction `t1` with a
single unspent output `0` of amount `50`, and an empty cache. -/
def c1s0 : CoinDatabase :=
  { db := [("t1", ⟨0, [0], [50], ["alice"]⟩)]
    MainCache := []
    MainCacheSize := 0
    MainCacheCapacity := 4 }

/-- A transaction spending output `(t1, 0)` into two fresh outputs. -/
def c1t2 : Transaction :=
  { Hash := "t2", Inputs := [⟨"t1", 0, ""⟩], Outputs := [⟨30, "bob"⟩, ⟨20, "alice"⟩] }

/-- The block holding `c1t2`. -/
def c1b2 : Block := { Header := ⟨0, "", "", "", 0, 0⟩, Transactions := [c1t2] }

/-- The undo block matching `c1b2`: its one consumed input restores
output `0` of `t1` with amount `50`. -/
def c1u2 : UndoBlock := ⟨["t1"], [0], some [50], ["alice"]⟩

/-- The state the code actually reaches after
`StoreBlock(c1t2); UndoCoins([c1b2],[c1u2])` from `c1s0`: the record
of `t1` carries a duplicated output entry and the size counter still
counts the two erased cache entries. -/
def c1s2 : CoinDatabase :=
  { db := [("t1", ⟨0, [0, 0], [50, 50], ["alice", "alice"]⟩)]
    MainCache := []
    MainCacheSize := 2
    MainCacheCapacity := 4 }

/-- Same setting as `c1s0`, used by the phase-(1) claim. -/
def c4s0 : CoinDatabase :=
  { db := [("t1", ⟨0, [0], [50], ["alice"]⟩)]
    MainCache := []
    MainCacheSize := 0
    MainCacheCapacity := 4 }

/-- A transaction spending output `(t1, 0)`, cache-missing. -/
def c4t2 : Transaction :=
  { Hash := "t2", Inputs := [⟨"t1", 0, ""⟩], Outputs := [⟨30, "bob"⟩, ⟨20, "alice"⟩] }

/-- A valid pre-state for `UndoCoins`: one cached coin, counter `1`. -/
def c3s : CoinDatabase :=
  { db := [("t1", ⟨0, [0], [50], ["alice"]⟩)]
    MainCache := [(⟨"t1", 0⟩, ⟨⟨50, "alice"⟩, false⟩)]
    MainCacheSize := 1
    MainCacheCapacity := 4 }

/-- The coinbase-style transaction that created `(t1, 0)`. -/
def c3t1 : Transaction := { Hash := "t1", Inputs := [], Outputs := [⟨50, "alice"⟩] }

/-- The block holding `c3t1`. -/
def c3b : Block := { Header := ⟨0, "", "", "", 0, 0⟩, Transactions := [c3t1] }

/-- The (empty) undo block matching `c3b`. -/
def c3u : UndoBlock := ⟨[], [], some [], []⟩

/-- A fresh database for the cache-size witness. -/
def c3ws : CoinDatabase :=
  { db := [], MainCache := [], MainCacheSize := 0, MainCacheCapacity := 4 }

/-- A coinbase transaction creating two outputs, for the witness. -/
def c3wtx : Transaction :=
  { Hash := "w1", Inputs := [], Outputs := [⟨50, "alice"⟩, ⟨10, "bob"⟩] }

/-- A cache holding a spent coin under `(a, 0)`, for the `GetCoin`
witness: the cached coin is returned as stored, spent flag included. -/
def c10s : CoinDatabase :=
  { db := [("b", ⟨0, [1], [7], ["carol"]⟩)]
    MainCache := [(⟨"a", 0⟩, ⟨⟨5, "x"⟩, true⟩)]
    MainCacheSize := 1
    MainCacheCapacity := 4 }

end coindatabase

namespace chainwriter

/-- A freshly initialised ChainWriter (`New` with both cursors at 0). -/
def c5cw : ChainWriter :=
  ⟨".txt", "data", "block", 0, 0, 1024, "undo", 0, 0, 1024⟩

/-- An empty block, for the undo-skip scenarios. -/
def c5bl : Block := { Header := ⟨0, "", "", "", 0, 0⟩, Transactions := [] }

/-- An undo block whose `Amounts` is a non-nil slice of length zero:
the amounts array is empty, yet `Amounts != nil` holds in Go. -/
def c5ub : UndoBlock := ⟨[], [], some [], []⟩

/-- An undo block whose `Amounts` is the nil slice. -/
def c5ubNil : UndoBlock := ⟨[], [], none, []⟩

/-- A ChainWriter mid-stream, for the `WriteBlock` witness. -/
def c6cw : ChainWriter :=
  ⟨".txt", "data", "block", 0, 3, 10, "undo", 0, 0, 10⟩

end chainwriter

/-! ### Theorems -/

namespace coindatabase

theorem containsU_eq_true_iff (l : List Nat) (e : Nat) :
    containsU l e = true ↔ e ∈ l := by
  induction l with
  | nil => simp [containsU]
  | cons a t ih =>
      by_cases h : a = e
      · subst h; simp [containsU]
      · have h2 : ¬e = a := fun hh => h hh.symm
        simp [containsU, h, ih, h2]

theorem indexOfU_eq_none_iff (l : List Nat) (e : Nat) :
    indexOfU l e = none ↔ e ∉ l := by
  induction l with
  | nil => simp [indexOfU]
  | cons a t ih =>
      by_cases h : a = e
      · subst h; simp [indexOfU]
      · have h2 : ¬e = a := fun hh => h hh.symm
        simp [indexOfU, h, ih, h2]

/-- C7: `FlushMainCache` empties the cache and resets `mainCacheSize`
to 0, and it is idempotent: a second flush in a row is the identity on
the whole state (persistent store included), with the counter still 0. -/
theorem FlushMainCache_empties_and_idempotent (s : CoinDatabase) :
    (FlushMainCache s).MainCache = [] ∧ (FlushMainCache s).MainCacheSize = 0 ∧
      FlushMainCache (FlushMainCache s) = FlushMainCache s :=
  ⟨rfl, rfl, rfl⟩

/-- The per-input validation check, stated as the spec's two-step
condition. -/
theorem validateInputCheck_iff (s : CoinDatabase) (txi : TransactionInput) :
    validateInputCheck s txi = true ↔
      (∀ coin, lookupAL s.MainCache (makeCoinLocator txi) = some coin →
          coin.IsSpent = false) ∧
      (lookupAL s.MainCache (makeCoinLocator txi) = none →
        ∃ cr, lookupAL s.db txi.ReferenceTransactionHash = some cr ∧
          txi.OutputIndex ∈ cr.OutputIndexes) := by
  unfold validateInputCheck
  cases hc : lookupAL s.MainCache (makeCoinLocator txi) with
  | some coin => simp [hc]
  | none =>
      cases hd : lookupAL s.db txi.ReferenceTransactionHash with
      | none => simp [hd]
      | some cr => simp [hd, containsU_eq_true_iff]

/-- C2: `ValidateBlock` returns `true` iff every input of every
transaction passes the two-step check: a cached coin must be unspent;
otherwise the persistent store must hold a record for the reference
hash whose `OutputIndexes` still lists the input's output index. -/
theorem ValidateBlock_eq_true_iff (s : CoinDatabase) (transactions : List Transaction) :
    ValidateBlock s transactions = true ↔
      ∀ tx ∈ transactions, ∀ txi ∈ tx.Inputs,
        (∀ coin, lookupAL s.MainCache (makeCoinLocator txi) = some coin →
            coin.IsSpent = false) ∧
        (lookupAL s.MainCache (makeCoinLocator txi) = none →
          ∃ cr, lookupAL s.db txi.ReferenceTransactionHash = some cr ∧
            txi.OutputIndex ∈ cr.OutputIndexes) := by
  simp only [ValidateBlock, validateTransaction, List.all_eq_true]
  exact ⟨fun h tx htx txi hi => (validateInputCheck_iff s txi).1 (h tx htx txi hi),
    fun h tx htx txi hi => (validateInputCheck_iff s txi).2 (h tx htx txi hi)⟩

theorem validateTransactionS_eq (s : CoinDatabase) (tx : Transaction) :
    validateTransactionS s tx = (validateTransaction s tx, s) := by
  unfold validateTransactionS validateTransaction
  suffices h : ∀ (l : List TransactionInput) (b : Bool),
      l.foldl (fun acc txi => if acc.1 then (validateInputCheck acc.2 txi, acc.2) else acc)
          (b, s) = (b && l.all (validateInputCheck s), s) by
    simpa using h tx.Inputs true
  intro l
  induction l with
  | nil => intro b; simp
  | cons x t ih =>
      intro b
      cases b <;> simp [ih, Bool.and_assoc]

theorem ValidateBlockS_eq (s : CoinDatabase) (transactions : List Transaction) :
    ValidateBlockS s transactions = (ValidateBlock s transactions, s) := by
  unfold ValidateBlockS ValidateBlock
  suffices h : ∀ (l : List Transaction) (b : Bool),
      l.foldl (fun acc tx => if acc.1 then validateTransactionS acc.2 tx else acc) (b, s) =
        (b && l.all (validateTransaction s), s) by
    simpa using h transactions true
  intro l
  induction l with
  | nil => intro b; simp
  | cons x t ih =>
      intro b
      cases b
      · simp [ih]
      · simp only [List.foldl_cons, if_true]
        rw [validateTransactionS_eq s x]
        cases hvx : validateTransaction s x
        · simpa [hvx] using ih false
        · simpa [hvx] using ih true

/-- C9: validation mutates no state — threading the database through
every step of `ValidateBlock` returns it unchanged (the cache, the
size counter and the persistent store are fields of that state), and
the boolean agrees with the read-only `ValidateBlock`. -/
theorem ValidateBlock_frame (s : CoinDatabase) (transactions : List Transaction) :
    (ValidateBlockS s transactions).2 = s ∧
      (ValidateBlockS s transactions).1 = ValidateBlock s transactions := by
  simp [ValidateBlockS_eq]

/-- C10: a cached coin is returned by `GetCoin` exactly as stored
(spent flag included); on a cache miss any returned coin is
reconstructed unspent; and the result is absent precisely when neither
the cache nor the persistent tier holds the locator. -/
theorem GetCoin_two_tier (s : CoinDatabase) (cl : CoinLocator) :
    (∀ coin, lookupAL s.MainCache cl = some coin → GetCoin s cl = some coin) ∧
    (lookupAL s.MainCache cl = none →
      ∀ coin, GetCoin s cl = some coin → coin.IsSpent = false) ∧
    (GetCoin s cl = none ↔
      lookupAL s.MainCache cl = none ∧
        ∀ cr, lookupAL s.db cl.ReferenceTransactionHash = some cr →
          cl.OutputIndex ∉ cr.OutputIndexes) := by
  unfold GetCoin getCoinRecordFromDB
  cases hc : lookupAL s.MainCache cl with
  | some coin => simp [hc]
  | none =>
      cases hd : lookupAL s.db cl.ReferenceTransactionHash with
      | none => simp [hd]
      | some cr =>
          cases hi : indexOfU cr.OutputIndexes cl.OutputIndex with
          | none =>
              simp [hd, hi]
              exact (indexOfU_eq_none_iff _ _).1 hi
          | some i =>
              simp [hd, hi]
              by_contra hnm
              rw [← indexOfU_eq_none_iff] at hnm
              simp [hnm] at hi

/-- Witness for C10 at a concrete state: the cached coin under
`(a, 0)` is spent, and `GetCoin` returns it as stored rather than
treating it as absent. -/
theorem GetCoin_two_tier_witness :
    GetCoin c10s ⟨"a", 0⟩ = some ⟨⟨5, "x"⟩, true⟩ :=
  (GetCoin_two_tier c10s ⟨"a", 0⟩).1 ⟨⟨5, "x"⟩, true⟩ (by decide)

/-- C4 fails on the code: from `c4s0` (record `t1 ↦ {[0],[50],[alice]}`
persisted, cache empty) the claim says storing `c4t2`, whose only input
spends `(t1, 0)` and misses the cache, removes that output and — the
record becoming empty — deletes the key `t1`.  The code instead calls
`removeCoinFromDB` with the hash of the spending transaction `t2`, finds
no record there, and leaves `t1` untouched. -/
theorem StoreBlock_spend_miss_leaves_record :
    lookupAL c4s0.MainCache (⟨"t1", 0⟩ : CoinLocator) = none ∧
    lookupAL (StoreBlock c4s0 [c4t2]).db "t1" =
      some (⟨0, [0], [50], ["alice"]⟩ : CoinRecord) ∧
    lookupAL c4s0.db "t1" = some (⟨0, [0], [50], ["alice"]⟩ : CoinRecord) := by
  refine ⟨by decide, by decide, by decide⟩

/-- C1 fails on the code: from `c1s0`,
`StoreBlock(c1b2.Transactions); UndoCoins([c1b2],[c1u2])` reaches
`c1s2`, whose record for `t1` lists output `0` twice (the spent output
was never removed, the phase-(1) slip described under C4, and the
undo appended it again) and whose `MainCacheSize` still counts the two
erased cache entries; `c1s2` differs from `c1s0` in both components. -/
theorem StoreBlock_UndoCoins_not_reversible :
    UndoCoins (StoreBlock c1s0 c1b2.Transactions) [c1b2] [c1u2] = some c1s2 ∧
    c1s2.db ≠ c1s0.db ∧ c1s2.MainCacheSize ≠ c1s0.MainCacheSize ∧ c1s2 ≠ c1s0 := by
  refine ⟨by decide, by decide, by decide, by decide⟩

/-- Counterexample to C3: `c3s` satisfies the invariant
(`MainCacheSize = 1` = one cache entry), yet after `UndoCoins` erases
the undone block's output locator from the cache the counter is still
`1` while the cache map is empty — the equality is broken. -/
theorem UndoCoins_size_counter_mismatch :
    c3s.MainCacheSize = c3s.MainCache.length ∧
    (UndoCoins c3s [c3b] [c3u]).map
        (fun t => (t.MainCacheSize, t.MainCache.length)) = some (1, 0) := by
  refine ⟨by decide, by decide⟩

end coindatabase

namespace blockinfodatabase

/-- C8: `BlockInfoIndex.Get` returns an absent result exactly when the
key is unknown to the store or the stored bytes fail to deserialize;
the embedded function is total, so neither case raises, and a corrupt
value surfaces only as absence. -/
theorem GetBlockRecord_absent_iff (store : List (String × List Nat))
    (decode : List Nat → Option BlockRecord) (hash : String) :
    GetBlockRecord store decode hash = none ↔
      (lookupAL store hash = none ∨
        ∃ b, lookupAL store hash = some b ∧ decode b = none) := by
  unfold GetBlockRecord
  cases h : lookupAL store hash with
  | none => simp [h]
  | some b => simp [h]

end blockinfodatabase

namespace chainwriter

/-- Counterexample to C5: with the non-nil but empty amounts slice of
`c5ub` the claim says the undo write is skipped and the undo location
is the empty FileLocation; the code tests `Amounts != nil`, performs
the undo write, and returns the location produced by `WriteUndoBlock`,
whose file name `data/undo_0.txt` is not the zero-length name. -/
theorem StoreBlock_empty_amounts_still_writes :
    (c5ub.Amounts.getD []).length = 0 ∧
    (StoreBlock c5cw c5bl c5ub 7 10 0).1.UndoFile = "data/undo_0.txt" ∧
    "data/undo_0.txt" ≠ "" := by
  refine ⟨by decide, by decide, by decide⟩

/-- C5 as amended: the undo write is skipped — and the BlockRecord
carries the empty FileLocation — exactly when the `Amounts` slice is
nil; for any non-nil `Amounts` slice (even one of length zero) the
undo block is written and the undo location is the FileInfo returned
by `WriteUndoBlock` on the post-block-write state. -/
theorem StoreBlock_undo_location (cw : ChainWriter) (bl : Block) (ub : UndoBlock)
    (height blockLen undoLen : Nat) :
    (ub.Amounts = none →
      (StoreBlock cw bl ub height blockLen undoLen).1.UndoFile = "" ∧
      (StoreBlock cw bl ub height blockLen undoLen).1.UndoStartOffset = 0 ∧
      (StoreBlock cw bl ub height blockLen undoLen).1.UndoEndOffset = 0 ∧
      (StoreBlock cw bl ub height blockLen undoLen).2 = (WriteBlock cw blockLen).2) ∧
    (∀ l, ub.Amounts = some l →
      (StoreBlock cw bl ub height blockLen undoLen).1.UndoFile =
        (WriteUndoBlock (WriteBlock cw blockLen).2 undoLen).1.FileName ∧
      (StoreBlock cw bl ub height blockLen undoLen).1.UndoStartOffset =
        (WriteUndoBlock (WriteBlock cw blockLen).2 undoLen).1.StartOffset ∧
      (StoreBlock cw bl ub height blockLen undoLen).1.UndoEndOffset =
        (WriteUndoBlock (WriteBlock cw blockLen).2 undoLen).1.EndOffset ∧
      (StoreBlock cw bl ub height blockLen undoLen).2 =
        (WriteUndoBlock (WriteBlock cw blockLen).2 undoLen).2) := by
  constructor
  · intro hA
    simp [StoreBlock, hA]
  · intro l hA
    simp [StoreBlock, hA]

/-- Witness for the amended C5 at a concrete input: a nil `Amounts`
slice yields the zero-valued undo location. -/
theorem StoreBlock_undo_location_witness :
    (StoreBlock c5cw c5bl c5ubNil 7 10 0).1.UndoFile = "" :=
  ((StoreBlock_undo_location c5cw c5bl c5ubNil 7 10 0).1 (by decide)).1

/-- C6: `WriteBlock` rotates (increments the file number and resets the
offset to 0) exactly when the pending write would overflow the current
file; the returned FileLocation starts at the offset in force before
the append, ends at `start + len`, and lies inside the single file
named after the (possibly incremented) current file number, and the
cursor advances by `len`.  The hypotheses rule out `uint32` wraparound,
under which the source arithmetic and the claim coincide. -/
theorem WriteBlock_spec (cw : ChainWriter) (n : Nat)
    (h1 : n < u32Mod) (h2 : cw.CurrentBlockOffset + n < u32Mod)
    (h3 : cw.CurrentBlockFileNumber + 1 < u32Mod) :
    ((cw.CurrentBlockOffset + n > cw.MaxBlockFileSize →
        (WriteBlock cw n).2.CurrentBlockFileNumber = cw.CurrentBlockFileNumber + 1 ∧
        (WriteBlock cw n).1.StartOffset = 0) ∧
      (¬cw.CurrentBlockOffset + n > cw.MaxBlockFileSize →
        (WriteBlock cw n).2.CurrentBlockFileNumber = cw.CurrentBlockFileNumber ∧
        (WriteBlock cw n).1.StartOffset = cw.CurrentBlockOffset)) ∧
    (WriteBlock cw n).1.EndOffset = (WriteBlock cw n).1.StartOffset + n ∧
    (WriteBlock cw n).2.CurrentBlockOffset = (WriteBlock cw n).1.StartOffset + n ∧
    (WriteBlock cw n).1.FileName =
      cw.DataDirectory ++ "/" ++ cw.BlockFileName ++ "_"
        ++ toString (WriteBlock cw n).2.CurrentBlockFileNumber ++ cw.FileExtension := by
  have hn : n % u32Mod = n := Nat.mod_eq_of_lt h1
  have hon : (cw.CurrentBlockOffset + n) % u32Mod = cw.CurrentBlockOffset + n :=
    Nat.mod_eq_of_lt h2
  have hf : (cw.CurrentBlockFileNumber + 1) % u32Mod = cw.CurrentBlockFileNumber + 1 :=
    Nat.mod_eq_of_lt h3
  have hzn : (0 + n) % u32Mod = n := by
    rw [Nat.zero_add]; exact hn
  by_cases hrot : cw.CurrentBlockOffset + n > cw.MaxBlockFileSize
  · simp [WriteBlock, hn, hon, hf, hzn, hrot]
  · simp [WriteBlock, hn, hon, hf, hzn, hrot]

/-- Witness for C6 at a concrete mid-stream writer: offset 3, max 10,
write of length 4; no rotation, location `[3, 7)`, cursor at 7. -/
theorem WriteBlock_spec_witness :
    (WriteBlock c6cw 4).1.StartOffset = 3 ∧
    (WriteBlock c6cw 4).1.EndOffset = 3 + 4 := by
  have h := WriteBlock_spec c6cw 4 (by decide) (by decide) (by decide)
  refine ⟨(h.1.2 (by decide)).2, ?_⟩
  have h2 := h.2.1
  rw [(h.1.2 (by decide)).2] at h2
  exact h2

end chainwriter

namespace coindatabase

theorem removeCoinFromDB_cache (s : CoinDatabase) (h : String) (cl : CoinLocator) :
    (removeCoinFromDB s h cl).MainCache = s.MainCache ∧
    (removeCoinFromDB s h cl).MainCacheSize = s.MainCacheSize ∧
    (removeCoinFromDB s h cl).MainCacheCapacity = s.MainCacheCapacity := by
  unfold removeCoinFromDB putRecordInDB
  cases hg : getCoinRecordFromDB s h with
  | none => exact ⟨rfl, rfl, rfl⟩
  | some cr =>
      by_cases hl : cr.Amounts.length ≤ 1
      · simp [hl]
      · simp [hl]

theorem storeSpendInput_cache_shape (s : CoinDatabase) (h : String)
    (txi : TransactionInput) :
    (storeSpendInput s h txi).MainCacheSize = s.MainCacheSize ∧
    (storeSpendInput s h txi).MainCacheCapacity = s.MainCacheCapacity ∧
    (storeSpendInput s h txi).MainCache.length = s.MainCache.length ∧
    ∀ l, lookupAL (storeSpendInput s h txi).MainCache l = none ↔
      lookupAL s.MainCache l = none := by
  have e := removeCoinFromDB_cache s h (makeCoinLocator txi)
  refine ⟨?_, ?_, ?_, ?_⟩
  · cases hc : lookupAL s.MainCache (makeCoinLocator txi) with
    | none =>
        simp only [storeSpendInput, hc]
        exact e.2.1
    | some coin => simp only [storeSpendInput, hc]
  · cases hc : lookupAL s.MainCache (makeCoinLocator txi) with
    | none =>
        simp only [storeSpendInput, hc]
        exact e.2.2
    | some coin => simp only [storeSpendInput, hc]
  · cases hc : lookupAL s.MainCache (makeCoinLocator txi) with
    | none =>
        simp only [storeSpendInput, hc]
        rw [e.1]
    | some coin =>
        simp only [storeSpendInput, hc]
        exact length_insertAL_of_some _ _ _ _ hc
  · intro l
    cases hc : lookupAL s.MainCache (makeCoinLocator txi) with
    | none =>
        simp only [storeSpendInput, hc]
        rw [e.1]
    | some coin =>
        simp only [storeSpendInput, hc, lookupAL_insertAL]
        by_cases hl : makeCoinLocator txi = l
        · subst hl
          simp [hc]
        · simp [hl]

theorem foldl_cache_shape {β : Type} (f : CoinDatabase → β → CoinDatabase)
    (hf : ∀ s b, (f s b).MainCacheSize = s.MainCacheSize ∧
        (f s b).MainCacheCapacity = s.MainCacheCapacity ∧
        (f s b).MainCache.length = s.MainCache.length ∧
        ∀ l, lookupAL (f s b).MainCache l = none ↔ lookupAL s.MainCache l = none) :
    ∀ (xs : List β) (s : CoinDatabase),
      (xs.foldl f s).MainCacheSize = s.MainCacheSize ∧
      (xs.foldl f s).MainCacheCapacity = s.MainCacheCapacity ∧
      (xs.foldl f s).MainCache.length = s.MainCache.length ∧
      ∀ l, lookupAL (xs.foldl f s).MainCache l = none ↔ lookupAL s.MainCache l = none := by
  intro xs
  induction xs with
  | nil => intro s; exact ⟨rfl, rfl, rfl, fun l => Iff.rfl⟩
  | cons x t ih =>
      intro s
      obtain ⟨a1, a2, a3, a4⟩ := hf s x
      obtain ⟨b1, b2, b3, b4⟩ := ih (f s x)
      rw [List.foldl_cons]
      exact ⟨b1.trans a1, b2.trans a2, b3.trans a3, fun l => (b4 l).trans (a4 l)⟩

theorem storePhaseA_cache_shape (s : CoinDatabase) (txs : List Transaction) :
    (storePhaseA s txs).MainCacheSize = s.MainCacheSize ∧
    (storePhaseA s txs).MainCacheCapacity = s.MainCacheCapacity ∧
    (storePhaseA s txs).MainCache.length = s.MainCache.length ∧
    ∀ l, lookupAL (storePhaseA s txs).MainCache l = none ↔
      lookupAL s.MainCache l = none := by
  unfold storePhaseA
  exact foldl_cache_shape _
    (fun s tx => foldl_cache_shape _
      (fun s txi => storeSpendInput_cache_shape s tx.Hash txi) tx.Inputs s) txs s

theorem storePhaseC_cache_shape (s : CoinDatabase) (txs : List Transaction) :
    (storePhaseC s txs).MainCacheSize = s.MainCacheSize ∧
    (storePhaseC s txs).MainCacheCapacity = s.MainCacheCapacity ∧
    (storePhaseC s txs).MainCache.length = s.MainCache.length ∧
    ∀ l, lookupAL (storePhaseC s txs).MainCache l = none ↔
      lookupAL s.MainCache l = none := by
  unfold storePhaseC
  exact foldl_cache_shape
    (fun s tx => putRecordInDB s tx.Hash (createCoinRecord tx))
    (fun s tx => ⟨rfl, rfl, rfl, fun l => Iff.rfl⟩) txs s

theorem foldl_flatMap_eq {σ α β : Type} (f : σ → β → σ) (g : α → List β) :
    ∀ (xs : List α) (s : σ),
      xs.foldl (fun s x => (g x).foldl f s) s = (xs.flatMap g).foldl f s := by
  intro xs
  induction xs with
  | nil => intro s; simp
  | cons x t ih => intro s; simp [List.flatMap_cons, List.foldl_append, ih]

theorem storePhaseB_eq_flat (s : CoinDatabase) (txs : List Transaction) :
    storePhaseB s txs =
      (flatOutputs txs).foldl (fun s q => storeInsertOutput s q.1 q.2) s := by
  unfold storePhaseB flatOutputs
  rw [← foldl_flatMap_eq]
  congr 1
  funext s2 tx
  rw [List.foldl_map]

theorem storeInsertOutput_step (s : CoinDatabase) (h : String)
    (p : Nat × TransactionOutput)
    (h1 : 1 ≤ s.MainCacheCapacity)
    (h2 : s.MainCacheSize = s.MainCache.length)
    (h3 : s.MainCacheSize ≤ s.MainCacheCapacity)
    (hfresh : lookupAL s.MainCache (⟨h, p.1⟩ : CoinLocator) = none) :
    (storeInsertOutput s h p).MainCacheSize =
        (storeInsertOutput s h p).MainCache.length ∧
    (storeInsertOutput s h p).MainCacheSize ≤
        (storeInsertOutput s h p).MainCacheCapacity ∧
    (storeInsertOutput s h p).MainCacheCapacity = s.MainCacheCapacity ∧
    ∀ l : CoinLocator, l ≠ (⟨h, p.1⟩ : CoinLocator) →
      lookupAL s.MainCache l = none →
      lookupAL (storeInsertOutput s h p).MainCache l = none := by
  unfold storeInsertOutput
  by_cases hcap : s.MainCacheSize ≥ s.MainCacheCapacity
  · rw [if_pos hcap]
    have hfc : (FlushMainCache s).MainCache = ([] : List (CoinLocator × Coin)) := rfl
    have hfs : (FlushMainCache s).MainCacheSize = 0 := rfl
    have hfk : (FlushMainCache s).MainCacheCapacity = s.MainCacheCapacity := rfl
    refine ⟨?_, ?_, ?_, ?_⟩
    · show (FlushMainCache s).MainCacheSize + 1 =
        (insertAL (FlushMainCache s).MainCache (⟨h, p.1⟩ : CoinLocator) ⟨p.2, false⟩).length
      rw [hfc, hfs]
      rfl
    · show (FlushMainCache s).MainCacheSize + 1 ≤ (FlushMainCache s).MainCacheCapacity
      rw [hfs, hfk]
      exact h1
    · exact hfk
    · intro l hl _
      show lookupAL
        (insertAL (FlushMainCache s).MainCache (⟨h, p.1⟩ : CoinLocator) ⟨p.2, false⟩) l = none
      rw [hfc]
      show (if (⟨h, p.1⟩ : CoinLocator) = l then some (⟨p.2, false⟩ : Coin) else none) = none
      rw [if_neg (fun hh => hl hh.symm)]
  · rw [if_neg hcap]
    refine ⟨?_, ?_, rfl, ?_⟩
    · show s.MainCacheSize + 1 =
        (insertAL s.MainCache (⟨h, p.1⟩ : CoinLocator) ⟨p.2, false⟩).length
      rw [length_insertAL_of_none _ _ _ hfresh, h2]
    · show s.MainCacheSize + 1 ≤ s.MainCacheCapacity
      omega
    · intro l hl hnone
      show lookupAL (insertAL s.MainCache (⟨h, p.1⟩ : CoinLocator) ⟨p.2, false⟩) l = none
      rw [lookupAL_insertAL, if_neg (fun hh => hl hh.symm)]
      exact hnone

theorem storeInsertOutput_flat_inv :
    ∀ (L : List (String × (Nat × TransactionOutput))) (s : CoinDatabase),
      1 ≤ s.MainCacheCapacity →
      s.MainCacheSize = s.MainCache.length →
      s.MainCacheSize ≤ s.MainCacheCapacity →
      (∀ q ∈ L, lookupAL s.MainCache (⟨q.1, q.2.1⟩ : CoinLocator) = none) →
      (L.map (fun q => (⟨q.1, q.2.1⟩ : CoinLocator))).Nodup →
      (L.foldl (fun s q => storeInsertOutput s q.1 q.2) s).MainCacheSize =
          (L.foldl (fun s q => storeInsertOutput s q.1 q.2) s).MainCache.length ∧
      (L.foldl (fun s q => storeInsertOutput s q.1 q.2) s).MainCacheSize ≤
          (L.foldl (fun s q => storeInsertOutput s q.1 q.2) s).MainCacheCapacity ∧
      (L.foldl (fun s q => storeInsertOutput s q.1 q.2) s).MainCacheCapacity =
          s.MainCacheCapacity := by
  intro L
  induction L with
  | nil => intro s h1 h2 h3 _ _; exact ⟨h2, h3, rfl⟩
  | cons q T ih =>
      intro s h1 h2 h3 hfresh hnodup
      rw [List.foldl_cons]
      obtain ⟨st1, st2, st3, st4⟩ :=
        storeInsertOutput_step s q.1 q.2 h1 h2 h3 (hfresh q (List.mem_cons_self q T))
      rw [List.map_cons, List.nodup_cons] at hnodup
      have hT : ∀ q2 ∈ T,
          lookupAL (storeInsertOutput s q.1 q.2).MainCache
            (⟨q2.1, q2.2.1⟩ : CoinLocator) = none := by
        intro q2 hq2
        refine st4 _ ?_ (hfresh q2 (List.mem_cons_of_mem q hq2))
        intro hh
        exact hnodup.1 (hh ▸ List.mem_map_of_mem (fun q => (⟨q.1, q.2.1⟩ : CoinLocator)) hq2)
      obtain ⟨r1, r2, r3⟩ :=
        ih (storeInsertOutput s q.1 q.2) (st3 ▸ h1) st1 st2 hT hnodup.2
      exact ⟨r1, r2, r3.trans st3⟩

theorem storePhaseB_inv (s : CoinDatabase) (txs : List Transaction)
    (h1 : 1 ≤ s.MainCacheCapacity)
    (h2 : s.MainCacheSize = s.MainCache.length)
    (h3 : s.MainCacheSize ≤ s.MainCacheCapacity)
    (hfresh : ∀ l ∈ createdLocators txs, lookupAL s.MainCache l = none)
    (hnodup : (createdLocators txs).Nodup) :
    (storePhaseB s txs).MainCacheSize = (storePhaseB s txs).MainCache.length ∧
    (storePhaseB s txs).MainCacheSize ≤ (storePhaseB s txs).MainCacheCapacity ∧
    (storePhaseB s txs).MainCacheCapacity = s.MainCacheCapacity := by
  rw [storePhaseB_eq_flat]
  exact storeInsertOutput_flat_inv (flatOutputs txs) s h1 h2 h3
    (fun q hq => hfresh _ (List.mem_map_of_mem _ hq)) hnodup

theorem undoEraseTx_size (s : CoinDatabase) (tx : Transaction) (t : CoinDatabase)
    (h : undoEraseTx s tx = some t) :
    t.MainCacheSize = s.MainCacheSize ∧ t.MainCacheCapacity = s.MainCacheCapacity := by
  unfold undoEraseTx at h
  split at h
  · split at h
    · cases h
      exact ⟨rfl, rfl⟩
    · cases h
  · cases h
    exact ⟨rfl, rfl⟩

theorem undoReviveStep_size (s : CoinDatabase) (ub : UndoBlock) (idx : Nat)
    (txHash : String) (t : CoinDatabase)
    (h : undoReviveStep s ub idx txHash = some t) :
    t.MainCacheSize = s.MainCacheSize ∧ t.MainCacheCapacity = s.MainCacheCapacity := by
  unfold undoReviveStep at h
  cases hg : getCoinRecordFromDB s txHash with
  | none => simp only [hg] at h; exact absurd h (by simp)
  | some cr =>
      simp only [hg] at h
      cases ho : ub.OutputIndexes.get? idx with
      | none => simp only [ho] at h; exact absurd h (by simp)
      | some oi =>
          simp only [ho] at h
          cases ha : addCoinToRecord cr ub idx with
          | none => simp only [ha] at h; exact absurd h (by simp)
          | some cr2 =>
              simp only [ha] at h
              cases hl : lookupAL s.MainCache (⟨txHash, oi⟩ : CoinLocator) with
              | some coin =>
                  simp only [hl] at h
                  cases h
                  exact ⟨rfl, rfl⟩
              | none =>
                  simp only [hl] at h
                  cases h
                  exact ⟨rfl, rfl⟩

theorem foldlM_size_preserved {β : Type} (f : CoinDatabase → β → Option CoinDatabase)
    (hf : ∀ s b t, f s b = some t →
      t.MainCacheSize = s.MainCacheSize ∧ t.MainCacheCapacity = s.MainCacheCapacity) :
    ∀ (xs : List β) (s t : CoinDatabase), xs.foldlM f s = some t →
      t.MainCacheSize = s.MainCacheSize ∧ t.MainCacheCapacity = s.MainCacheCapacity := by
  intro xs
  induction xs with
  | nil =>
      intro s t h
      rw [List.foldlM_nil] at h
      cases h
      exact ⟨rfl, rfl⟩
  | cons x xt ih =>
      intro s t h
      rw [List.foldlM_cons] at h
      cases hx : f s x with
      | none => rw [hx] at h; cases h
      | some s1 =>
          rw [hx] at h
          simp only [Option.bind_eq_bind, Option.some_bind] at h
          obtain ⟨i1, i2⟩ := ih s1 t h
          obtain ⟨j1, j2⟩ := hf s x s1 hx
          exact ⟨i1.trans j1, i2.trans j2⟩

theorem undoBlockPair_size (s : CoinDatabase) (b : Block) (ub : UndoBlock)
    (t : CoinDatabase) (h : undoBlockPair s b ub = some t) :
    t.MainCacheSize = s.MainCacheSize ∧ t.MainCacheCapacity = s.MainCacheCapacity := by
  unfold undoBlockPair at h
  cases he : b.Transactions.foldlM undoEraseTx s with
  | none => rw [he] at h; cases h
  | some s1 =>
      rw [he] at h
      simp only [Option.bind_eq_bind, Option.some_bind] at h
      obtain ⟨i1, i2⟩ := foldlM_size_preserved undoEraseTx undoEraseTx_size
        b.Transactions s s1 he
      unfold undoRevive at h
      obtain ⟨j1, j2⟩ := foldlM_size_preserved
        (fun s p => undoReviveStep s ub p.1 p.2)
        (fun s p t hh => undoReviveStep_size s ub p.1 p.2 t hh)
        ub.TransactionInputHashes.enum s1 t h
      exact ⟨j1.trans i1, j2.trans i2⟩

theorem UndoCoins_size_preserved :
    ∀ (bs : List Block) (ubs : List UndoBlock) (s t : CoinDatabase),
      UndoCoins s bs ubs = some t → t.MainCacheSize = s.MainCacheSize := by
  intro bs
  induction bs with
  | nil =>
      intro ubs s t h
      unfold UndoCoins at h
      cases h
      rfl
  | cons b bt ih =>
      intro ubs s t h
      cases ubs with
      | nil =>
          unfold UndoCoins at h
          cases h
      | cons ub ubt =>
          unfold UndoCoins at h
          cases hp : undoBlockPair s b ub with
          | none => rw [hp] at h; cases h
          | some s1 =>
              rw [hp] at h
              simp only [Option.bind_eq_bind, Option.some_bind] at h
              exact (ih ubt s1 t h).trans (undoBlockPair_size s b ub s1 hp).1

/-- C3 as amended: provided the invariant holds on entry, the capacity
is positive and the stored transactions create pairwise-distinct
locators not already cached, `StoreBlock` and `FlushMainCache` return
with `mainCacheSize` equal to the number of cache entries and at most
`mainCacheCapacity` (`GetCoin` and `ValidateBlock` read the state
without returning a new one, cf. C9); `UndoCoins`, however, leaves
the counter exactly as it was even though it removes the undone
outputs' locators from the cache, so for it the equality can break,
as the C3 counterexample shows. -/
theorem CoinDatabase_cacheSize_invariant (s : CoinDatabase) (txs : List Transaction)
    (h1 : 1 ≤ s.MainCacheCapacity)
    (h2 : s.MainCacheSize = s.MainCache.length)
    (h3 : s.MainCacheSize ≤ s.MainCacheCapacity)
    (h4 : (createdLocators txs).Nodup)
    (h5 : ∀ l ∈ createdLocators txs, lookupAL s.MainCache l = none) :
    ((StoreBlock s txs).MainCacheSize = (StoreBlock s txs).MainCache.length ∧
      (StoreBlock s txs).MainCacheSize ≤ (StoreBlock s txs).MainCacheCapacity) ∧
    ((FlushMainCache s).MainCacheSize = (FlushMainCache s).MainCache.length ∧
      (FlushMainCache s).MainCacheSize ≤ (FlushMainCache s).MainCacheCapacity) ∧
    (∀ bs ubs t, UndoCoins s bs ubs = some t →
      t.MainCacheSize = s.MainCacheSize) := by
  refine ⟨?_, ⟨rfl, Nat.zero_le _⟩, fun bs ubs t h => UndoCoins_size_preserved bs ubs s t h⟩
  unfold StoreBlock
  obtain ⟨a1, a2, a3, a4⟩ := storePhaseA_cache_shape s txs
  obtain ⟨b1, b2, b3⟩ := storePhaseB_inv (storePhaseA s txs) txs
    (a2 ▸ h1) (by rw [a1, a3]; exact h2) (by rw [a1, a2]; exact h3)
    (fun l hl => (a4 l).2 (h5 l hl)) h4
  obtain ⟨c1, c2, c3, _⟩ :=
    storePhaseC_cache_shape (storePhaseB (storePhaseA s txs) txs) txs
  constructor
  · rw [c1, c3]
    exact b1
  · rw [c1, c2]
    exact b2

/-- Witness for the amended C3: from the empty database `c3ws`
(capacity 4, invariant holding trivially), storing the two-output
coinbase `c3wtx` ends with the counter equal to the entry count. -/
theorem CoinDatabase_cacheSize_invariant_witness :
    (StoreBlock c3ws [c3wtx]).MainCacheSize =
      (StoreBlock c3ws [c3wtx]).MainCache.length :=
  ((CoinDatabase_cacheSize_invariant c3ws [c3wtx] (by decide) (by decide) (by decide)
    (by decide) (by decide)).1).1

end coindatabase
